import Mathlib

/-!
Verification of the PDFer recent-documents registry and session state
against its natural-language specification.

The embedding translates:
 - `src/src/interface.rs`: the registry sketch (`FileInfo`, `new_file`,
   `rename`) operating on a `Vec<FileInfo>`, modelled as `List FileInfo`;
 - `src/src/main.rs`: the startup load, the navigation callbacks, the
   page-label callback, the font-size callback and the close callback;
 - parts of the repository that are referenced by `main.rs` but whose code
   is not under `src/` (`FileManager::add_file`, the serde snapshot codec
   for `Vec<FileInfo>`, `txt_file`): these carry a doc comment starting
   `Modelled from the spec:` and follow the specification text.

Machine integers: `u64` fields carry no arithmetic here and are modelled
as `Nat`; the `i32` font accumulator overflows in the source and is
modelled as `Int` with explicit reduction modulo `2 ^ 32` (`wrap32`).
-/

namespace PDFer

set_option maxRecDepth 40000

/-- One tracked document, as declared by `struct FileInfo` in
`src/src/interface.rs` and by the snapshot format (spec section 6): fields
`name`, `filepath`, `last_read`, `page_num`. -/
structure FileInfo where
  name : String
  filepath : String
  last_read : Nat
  page_num : Nat
deriving DecidableEq

/-- Translation of `new_file` from `src/src/interface.rs`: pushes a fresh
record `FileInfo(name, filename, last_read: 0, page_num: 0)` onto the back
of `stored_files` (a `Vec`, so `push` appends), unconditionally. -/
def new_file (stored_files : List FileInfo) (filename : String) (name : String) :
    List FileInfo :=
  stored_files ++ [⟨name, filename, 0, 0⟩]

/-- Translation of `rename` from `src/src/interface.rs`: walks
`stored_files` and sets `name = new_name` on every record whose `name`
equals `old_name`. Matching is by display name, not by `filepath`, and a
miss is silent (the function has no error path). -/
def rename (stored_files : List FileInfo) (new_name : String) (old_name : String) :
    List FileInfo :=
  stored_files.map (fun f => if f.name = old_name then { f with name := new_name } else f)

/-- Number of records of `files` whose `filepath` equals `p`. -/
def countPath (files : List FileInfo) (p : String) : Nat :=
  (files.filter (fun f => f.filepath == p)).length

/-- Translation of the `on_navigate_previous` callback body from
`src/src/main.rs`: if the current page is positive, decrement it,
otherwise leave it unchanged. -/
def on_navigate_previous (cur : Nat) : Nat :=
  if cur > 0 then cur - 1 else cur

/-- Translation of the `on_navigate_next` callback body from
`src/src/main.rs`: `total` is the document page count obtained from the
renderer; the page is incremented only when `cur + 1 < total`. -/
def on_navigate_next (total : Nat) (cur : Nat) : Nat :=
  if cur + 1 < total then cur + 1 else cur

/-- Two's-complement reduction of an integer into the `i32` range, the
release-profile behavior of overflowing `i32` arithmetic in Rust. -/
def wrap32 (n : Int) : Int :=
  (n + 2 ^ 31) % 2 ^ 32 - 2 ^ 31

/-- The two trailing range checks of `on_set_font_size` in
`src/src/main.rs`: over 256 gives 256, non-positive gives 1. -/
def clampFont (font : Int) : Int :=
  if font > 256 then 256 else if font ≤ 0 then 1 else font

/-- Translation of the character loop of `on_set_font_size` in
`src/src/main.rs`. Each iteration first multiplies `font` by 10, then
either breaks with `numeric = false` on a non-digit or adds the digit
value. The model is faithful for ASCII characters, where Rust
`char::is_numeric` coincides with `Char.isDigit` and `to_digit(10)`
succeeds exactly on those characters (on non-ASCII Unicode numerics the
source instead panics in `to_digit(10).unwrap()`); `i32` arithmetic is
wrapped by `wrap32`. Returns the `numeric` flag and the accumulator. -/
def fontLoop : List Char → Int → Bool × Int
  | [], font => (true, font)
  | c :: cs, font =>
    if c.isDigit then fontLoop cs (wrap32 (wrap32 (font * 10) + ((c.toNat : Int) - 48)))
    else (false, wrap32 (font * 10))

/-- Translation of the `on_set_font_size` callback from `src/src/main.rs`:
run the loop over the characters of `new_size`, fall back to `old_font`
when a non-digit was hit, then apply the range checks. -/
def on_set_font_size (new_size : String) (old_font : Int) : Int :=
  let r := fontLoop new_size.toList 0
  clampFont (if r.1 then r.2 else old_font)

/-- Exact decimal value of a digit string, without any integer wrapping. -/
def digitsVal (l : List Char) : Int :=
  l.foldl (fun a c => a * 10 + ((c.toNat : Int) - 48)) 0

/-- Decimal value of a digit string as the source computes it: every
intermediate `i32` operation reduced by `wrap32`. -/
def wrapDigitsVal (l : List Char) : Int :=
  l.foldl (fun a c => wrap32 (wrap32 (a * 10) + ((c.toNat : Int) - 48))) 0

/-- Follows the words of claim C10 (not the source): an all-digit input
yields its exact decimal value clamped to `[1, 256]`, any other input
yields `old_font` clamped to that range. -/
def claimFontSize (new_size : String) (old_font : Int) : Int :=
  if new_size.toList.all Char.isDigit then clampFont (digitsVal new_size.toList)
  else clampFont old_font

/-! ### Snapshot codec

`main.rs` persists the registry with `serde_json::to_string(&files)` and
reads it back with `serde_json::from_str`; the `FileInfo` type with its
serde derive lives in the part of the repository missing from `src/`.
The codec below is modelled from the spec (section 6): a single JSON
array of records with fields `name` (string), `filepath` (string),
`last_read` (unsigned integer), `page_num` (unsigned integer), in serde's
compact encoding (no whitespace, struct fields in declaration order,
strings escaped as serde_json escapes them). -/

/-- The double-quote character. -/
def quoteChar : Char := Char.ofNat 34

/-- The opening-brace character of a JSON object. -/
def lbraceChar : Char := Char.ofNat 123

/-- The closing-brace character of a JSON object. -/
def rbraceChar : Char := Char.ofNat 125

/-- Decimal digit character for `n < 10`. -/
def decDigitChar (n : Nat) : Char := Char.ofNat (48 + n)

/-- Lowercase hexadecimal digit character for `n < 16`, as serde_json
writes in `\u00XY` escapes. -/
def hexDigitChar (n : Nat) : Char :=
  if n < 10 then Char.ofNat (48 + n) else Char.ofNat (87 + n)

/-- Fuel-driven most-significant-first decimal digits of `n`. -/
def natDigitsAux : Nat → Nat → List Char
  | 0, _ => []
  | fuel + 1, n =>
    if n < 10 then [decDigitChar n]
    else natDigitsAux fuel (n / 10) ++ [decDigitChar (n % 10)]

/-- Decimal digit string of `n`, as Rust formats an unsigned integer. -/
def natDigits (n : Nat) : List Char := natDigitsAux (n + 1) n

/-- Modelled from the spec: serde_json's escaping of one character inside
a JSON string: quote and backslash get a backslash, the named control
characters use their short escapes, other control characters use
`\u00XY`, and everything else is emitted as itself. -/
def escChar (c : Char) : List Char :=
  if c = quoteChar then ['\\', quoteChar]
  else if c = '\\' then ['\\', '\\']
  else if c = Char.ofNat 8 then ['\\', 'b']
  else if c = Char.ofNat 9 then ['\\', 't']
  else if c = Char.ofNat 10 then ['\\', 'n']
  else if c = Char.ofNat 12 then ['\\', 'f']
  else if c = Char.ofNat 13 then ['\\', 'r']
  else if c.toNat < 32 then
    ['\\', 'u', '0', '0', hexDigitChar (c.toNat / 16), hexDigitChar (c.toNat % 16)]
  else [c]

/-- Escape every character of a string body. -/
def escStr : List Char → List Char
  | [] => []
  | c :: cs => escChar c ++ escStr cs

/-- Literal opening a record up to the start of the `name` value. -/
def litName : List Char :=
  [lbraceChar, quoteChar] ++ ("name").toList ++ [quoteChar, ':', quoteChar]

/-- Literal between the `name` value and the start of the `filepath` value. -/
def litFilepath : List Char :=
  [',', quoteChar] ++ ("filepath").toList ++ [quoteChar, ':', quoteChar]

/-- Literal between the `filepath` value and the `last_read` number. -/
def litLastRead : List Char :=
  [',', quoteChar] ++ ("last_read").toList ++ [quoteChar, ':']

/-- Literal between the `last_read` number and the `page_num` number. -/
def litPageNum : List Char :=
  [',', quoteChar] ++ ("page_num").toList ++ [quoteChar, ':']

/-- Compact JSON object for one record. -/
def recordJson (f : FileInfo) : List Char :=
  litName ++ escStr f.name.toList ++ (quoteChar ::
    (litFilepath ++ escStr f.filepath.toList ++ (quoteChar ::
      (litLastRead ++ natDigits f.last_read ++
        (litPageNum ++ natDigits f.page_num ++ [rbraceChar])))))

/-- Comma-separated record objects. -/
def itemsJson : List FileInfo → List Char
  | [] => []
  | [f] => recordJson f
  | f :: f2 :: fs => recordJson f ++ (',' :: itemsJson (f2 :: fs))

/-- Compact JSON array for the registry. -/
def listJson (fs : List FileInfo) : List Char :=
  '[' :: (itemsJson fs ++ [']'])

/-- Modelled from the spec: `serde_json::to_string(&files)` on the record
list, under section 6's snapshot format. -/
def serialize (fs : List FileInfo) : String := String.mk (listJson fs)

/-- Outcome of a failed snapshot parse, the spec's `ParseError`. -/
inductive ParseError where
  | parseError
deriving DecidableEq

/-- Consume the exact literal `lit` from the front of `l`. -/
def expectLit : List Char → List Char → Option (List Char)
  | [], l => some l
  | c :: cs, l =>
    match l with
    | [] => none
    | d :: ds => if d = c then expectLit cs ds else none

/-- Consume a maximal run of decimal digits, accumulating their value. -/
def parseDigitsAux : List Char → Nat → Nat × List Char
  | [], acc => (acc, [])
  | c :: cs, acc =>
    if c.isDigit then parseDigitsAux cs (acc * 10 + (c.toNat - 48))
    else (acc, c :: cs)

/-- Parse a JSON unsigned number: at least one leading digit. -/
def parseNat (l : List Char) : Option (Nat × List Char) :=
  match l with
  | [] => none
  | c :: _ => if c.isDigit then some (parseDigitsAux l 0) else none

/-- Value of one hexadecimal digit character. -/
def hexVal (c : Char) : Option Nat :=
  if 48 ≤ c.toNat ∧ c.toNat ≤ 57 then some (c.toNat - 48)
  else if 97 ≤ c.toNat ∧ c.toNat ≤ 102 then some (c.toNat - 87)
  else if 65 ≤ c.toNat ∧ c.toNat ≤ 70 then some (c.toNat - 55)
  else none

/-- Parse the body of a JSON string after its opening quote, up to and
including the closing quote, decoding the escapes `escChar` can emit
(plus the standard `\/`); a bare control character is rejected, as
serde_json rejects it. -/
def parseStrBody : List Char → Option (List Char × List Char)
  | [] => none
  | c :: rest =>
    if c = quoteChar then some ([], rest)
    else if c = '\\' then
      match rest with
      | [] => none
      | e :: rest2 =>
        if e = quoteChar then (parseStrBody rest2).map (fun p => (quoteChar :: p.1, p.2))
        else if e = '\\' then (parseStrBody rest2).map (fun p => ('\\' :: p.1, p.2))
        else if e = '/' then (parseStrBody rest2).map (fun p => ('/' :: p.1, p.2))
        else if e = 'b' then (parseStrBody rest2).map (fun p => (Char.ofNat 8 :: p.1, p.2))
        else if e = 't' then (parseStrBody rest2).map (fun p => (Char.ofNat 9 :: p.1, p.2))
        else if e = 'n' then (parseStrBody rest2).map (fun p => (Char.ofNat 10 :: p.1, p.2))
        else if e = 'f' then (parseStrBody rest2).map (fun p => (Char.ofNat 12 :: p.1, p.2))
        else if e = 'r' then (parseStrBody rest2).map (fun p => (Char.ofNat 13 :: p.1, p.2))
        else if e = 'u' then
          match rest2 with
          | h1 :: h2 :: h3 :: h4 :: rest3 =>
            match hexVal h1, hexVal h2, hexVal h3, hexVal h4 with
            | some a, some b, some c2, some d =>
              (parseStrBody rest3).map
                (fun p => (Char.ofNat (((a * 16 + b) * 16 + c2) * 16 + d) :: p.1, p.2))
            | _, _, _, _ => none
          | _ => none
        else none
    else if c.toNat < 32 then none
    else (parseStrBody rest).map (fun p => (c :: p.1, p.2))

/-- Parse one record object in the exact shape `recordJson` emits. -/
def parseRecord (l : List Char) : Option (FileInfo × List Char) :=
  match expectLit litName l with
  | none => none
  | some l1 =>
    match parseStrBody l1 with
    | none => none
    | some (nm, l2) =>
      match expectLit litFilepath l2 with
      | none => none
      | some l3 =>
        match parseStrBody l3 with
        | none => none
        | some (fp, l4) =>
          match expectLit litLastRead l4 with
          | none => none
          | some l5 =>
            match parseNat l5 with
            | none => none
            | some (lr, l6) =>
              match expectLit litPageNum l6 with
              | none => none
              | some l7 =>
                match parseNat l7 with
                | none => none
                | some (pn, l8) =>
                  match expectLit [rbraceChar] l8 with
                  | none => none
                  | some l9 => some (⟨String.mk nm, String.mk fp, lr, pn⟩, l9)

/-- Parse one or more comma-separated records followed by `]`; `fuel`
bounds the number of records. -/
def parseItemsAux : Nat → List Char → Option (List FileInfo × List Char)
  | 0, _ => none
  | fuel + 1, l =>
    match parseRecord l with
    | none => none
    | some (f, l1) =>
      match l1 with
      | [] => none
      | c :: l2 =>
        if c = ',' then (parseItemsAux fuel l2).map (fun p => (f :: p.1, p.2))
        else if c = ']' then some ([f], l2)
        else none

/-- Parse a JSON array of records. -/
def parseList (l : List Char) : Option (List FileInfo × List Char) :=
  match l with
  | [] => none
  | c :: l1 =>
    if c = '[' then
      match l1 with
      | [] => none
      | d :: l2 =>
        if d = ']' then some (([], l2) : List FileInfo × List Char)
        else parseItemsAux l1.length l1
    else none

/-- Modelled from the spec: `serde_json::from_str::<Vec<FileInfo>>` on the
snapshot text; anything but a complete well-formed array is a
`ParseError`. -/
def parse (s : String) : Except ParseError (List FileInfo) :=
  match parseList s.toList with
  | some (fs, []) => Except.ok fs
  | _ => Except.error ParseError.parseError

/-- Translation of the startup load in `main` (`src/src/main.rs`): the
argument is the outcome of `txt_file::read_file("database.json")`
(`none` for an I/O error such as a missing file). An error is ignored,
empty content is skipped, and any other content is handed to the parser,
whose failure is propagated out of `main` by the `?` operator. -/
def mainInit (readResult : Option String) : Except ParseError (List FileInfo) :=
  match readResult with
  | none => Except.ok []
  | some data => if data = "" then Except.ok [] else parse data

/-- Modelled from the spec: `FileManager::add_file`, called by the
`on_close_requested` callback, is absent from `src/`; spec section 9
records that "the observed source unconditionally appends the active
session into the registry at shutdown rather than upserting by path".
`cur` is the active session's record, if any. -/
def add_file (files : List FileInfo) (cur : Option FileInfo) : List FileInfo :=
  match cur with
  | none => files
  | some f => files ++ [f]

/-- Translation of the `on_close_requested` callback from
`src/src/main.rs`: fold the session record in with `add_file`, then
serialize the whole registry for `txt_file::write_to_file`. Returns the
final registry and the persisted snapshot text. -/
def on_close_requested (files : List FileInfo) (cur : Option FileInfo) :
    List FileInfo × String :=
  let files2 := add_file files cur
  (files2, serialize files2)

/-- Translation of the `on_get_page` callback from `src/src/main.rs`:
`format!("{} of {}", cur, total)` where `cur` is the stored zero-based
page cursor and `total` is the renderer's page count. -/
def on_get_page (cur : Nat) (total : Nat) : String :=
  String.mk (natDigits cur ++ (" of ").toList ++ natDigits total)

/-- Follows the words of claim C8 (not the source): the label under a
uniformly one-based convention, current page `cur + 1` out of `total`. -/
def labelOneBased (cur : Nat) (total : Nat) : String :=
  String.mk (natDigits (cur + 1) ++ (" of ").toList ++ natDigits total)

/-- Follows the words of claim C8 (not the source): the label under a
uniformly zero-based convention, current index `cur` out of a last index
`total - 1`. -/
def labelZeroBased (cur : Nat) (total : Nat) : String :=
  String.mk (natDigits cur ++ (" of ").toList ++ natDigits (total - 1))

/-- Per-element relation between a record after `rename` and the same
record before it: only the display name may change, and it changes
exactly when the old display name matched. -/
def renameRel (new_name old_name : String) (f2 f : FileInfo) : Prop :=
  f2.filepath = f.filepath ∧ f2.last_read = f.last_read ∧ f2.page_num = f.page_num ∧
    f2.name = (if f.name = old_name then new_name else f.name)

/-! ### Registry and session theorems -/

/-- C1: closing the window with an active document whose path is already
in the registry appends a second record for that path before persisting;
the registry written at shutdown holds two records for `/docs/a.pdf`,
not one as the upsert-by-path contract demands. -/
theorem C1_close_appends_duplicate :
    countPath (on_close_requested [⟨"a.pdf", "/docs/a.pdf", 5, 2⟩]
      (some ⟨"a.pdf", "/docs/a.pdf", 7, 3⟩)).1 "/docs/a.pdf" = 2 := by
  decide

/-- C2: `new_file` called twice with the same filepath on an empty
registry leaves two records for that filepath, so adding the same
document twice is not idempotent on record identity. -/
theorem C2_new_file_duplicates :
    countPath (new_file (new_file [] "/docs/a.pdf" "a.pdf") "/docs/a.pdf" "a.pdf")
      "/docs/a.pdf" = 2 := by
  decide

/-- C5 counterexample: `new_file` on `/docs/a.pdf` then `/docs/b.pdf`
yields the records in insertion order `[a, b]`, not the claimed
most-recently-used order `[b, a]`. -/
theorem C5_front_insert_counterexample :
    new_file (new_file [] "/docs/a.pdf" "a") "/docs/b.pdf" "b"
        = [⟨"a", "/docs/a.pdf", 0, 0⟩, ⟨"b", "/docs/b.pdf", 0, 0⟩] ∧
      new_file (new_file [] "/docs/a.pdf" "a") "/docs/b.pdf" "b"
        ≠ [⟨"b", "/docs/b.pdf", 0, 0⟩, ⟨"a", "/docs/a.pdf", 0, 0⟩] := by
  decide

/-- C5 amended: two successive `new_file` calls append both fresh
records (display name, path, `last_read = 0`, `page_num = 0`) at the back
of the registry, so the listing is in insertion order, oldest first. -/
theorem C5_append_order (stored : List FileInfo) (p1 d1 p2 d2 : String) :
    new_file (new_file stored p1 d1) p2 d2
      = stored ++ [⟨d1, p1, 0, 0⟩, ⟨d2, p2, 0, 0⟩] := by
  simp [new_file]

/-- C7: under the session invariant `cur < total`, both navigation
callbacks keep the cursor strictly below the page count (it is a `Nat`,
hence non-negative); `on_navigate_previous` is the identity at page 0 and
otherwise decrements, `on_navigate_next` is the identity on the last page
`total - 1` and otherwise increments. -/
theorem C7_navigation_bounds (cur total : Nat) (h : cur < total) :
    on_navigate_previous cur < total ∧ on_navigate_next total cur < total ∧
      (cur = 0 → on_navigate_previous cur = 0) ∧
      (0 < cur → on_navigate_previous cur = cur - 1) ∧
      (cur + 1 = total → on_navigate_next total cur = cur) ∧
      (cur + 1 < total → on_navigate_next total cur = cur + 1) := by
  unfold on_navigate_previous on_navigate_next
  split_ifs <;> omega

/-- C7 witness: the navigation theorem applied at page 1 of a 3-page
document. -/
theorem C7_navigation_bounds_witness :
    on_navigate_previous 1 < 3 ∧ on_navigate_next 3 1 < 3 ∧
      (1 = 0 → on_navigate_previous 1 = 0) ∧
      (0 < 1 → on_navigate_previous 1 = 1 - 1) ∧
      (1 + 1 = 3 → on_navigate_next 3 1 = 1) ∧
      (1 + 1 < 3 → on_navigate_next 3 1 = 1 + 1) :=
  C7_navigation_bounds 1 3 (by decide)

/-- C9 counterexample: on a registry whose only record has filepath `p`
and display name `n`, `rename` keyed by the path `p` (as the claim reads
it) changes nothing — the record is matched by display name, not by
filepath — so the claimed renamed registry is not produced, and no
`NotFound` error exists in the signature. -/
theorem C9_rename_by_path_counterexample :
    rename [⟨"n", "p", 3, 4⟩] "d" "p" = [⟨"n", "p", 3, 4⟩] ∧
      rename [⟨"n", "p", 3, 4⟩] "d" "p" ≠ [⟨"d", "p", 3, 4⟩] := by
  decide

/-- C9 amended: `rename` relates the output registry to the input
pointwise (same length, same order): every record keeps its `filepath`,
`last_read` and `page_num`, and its display name becomes the new name
exactly when it equalled the old name; when no record's display name
matches, the registry is returned unchanged (a silent no-op, with no
`NotFound` failure). -/
theorem C9_rename_frame (stored : List FileInfo) (new_name old_name : String) :
    List.Forall₂ (renameRel new_name old_name) (rename stored new_name old_name) stored ∧
      ((∀ f ∈ stored, f.name ≠ old_name) → rename stored new_name old_name = stored) := by
  constructor
  · induction stored with
    | nil => exact List.Forall₂.nil
    | cons f fs ih =>
      refine List.Forall₂.cons ?_ ih
      by_cases hf : f.name = old_name <;> simp [renameRel, hf]
  · intro hmiss
    induction stored with
    | nil => rfl
    | cons f fs ih =>
      have h1 : f.name ≠ old_name := hmiss f (by simp)
      have h2 := ih (fun g hg => hmiss g (by simp [hg]))
      simpa [rename, h1] using h2

/-- C9 witness: the frame theorem applied to a one-record registry and a
display name matching no record, with the hypothesis discharged. -/
theorem C9_rename_frame_witness :
    rename [⟨"n", "p", 3, 4⟩] "x" "z" = [⟨"n", "p", 3, 4⟩] :=
  (C9_rename_frame [⟨"n", "p", 3, 4⟩] "x" "z").2 (by decide)

/-- The loop of `on_set_font_size` on an all-digit string never clears
the `numeric` flag and computes the wrapped Horner value. -/
theorem fontLoop_all_digits :
    ∀ (l : List Char) (acc : Int), l.all Char.isDigit = true →
      fontLoop l acc
        = (true, l.foldl (fun a c => wrap32 (wrap32 (a * 10) + ((c.toNat : Int) - 48))) acc) := by
  intro l
  induction l with
  | nil => intro acc _; rfl
  | cons c cs ih =>
    intro acc hall
    rw [List.all_cons, Bool.and_eq_true] at hall
    simp [fontLoop, hall.1, ih _ hall.2]

/-- The loop of `on_set_font_size` clears the `numeric` flag as soon as
the string has a non-digit character. -/
theorem fontLoop_not_all :
    ∀ (l : List Char) (acc : Int), l.all Char.isDigit = false →
      (fontLoop l acc).1 = false := by
  intro l
  induction l with
  | nil => intro acc hall; simp at hall
  | cons c cs ih =>
    intro acc hall
    rw [List.all_cons, Bool.and_eq_false_iff] at hall
    rcases hall with hc | hcs
    · simp [fontLoop, hc]
    · by_cases hc : c.isDigit <;> simp [fontLoop, hc, ih _ hcs]

/-- The trailing range checks always land in `[1, 256]`. -/
theorem clampFont_mem (x : Int) : 1 ≤ clampFont x ∧ clampFont x ≤ 256 := by
  unfold clampFont
  split_ifs <;> omega

/-- C10 counterexample: on the all-digit input `"4294967296"` (which is
`2 ^ 32`, wrapping to 0 in `i32` arithmetic) the callback returns 1,
while the claimed exact-decimal-then-clamp contract returns 256. -/
theorem C10_font_size_counterexample :
    on_set_font_size "4294967296" 100 ≠ claimFontSize "4294967296" 100 := by
  decide

/-- C10 amended: for inputs made of ASCII characters (on a non-ASCII
Unicode numeric character the source panics instead, in
`to_digit(10).unwrap()`), the callback always returns a value in
`[1, 256]`; with any non-digit character present the result is `old_font`
clamped to that range, and with all characters digits the result is the
decimal value as accumulated in wrapping 32-bit signed arithmetic,
clamped to that range. -/
theorem C10_font_size_clamped (s : String) (old : Int)
    (_hascii : ∀ c ∈ s.toList, c.toNat < 128) :
    (1 ≤ on_set_font_size s old ∧ on_set_font_size s old ≤ 256) ∧
      (s.toList.all Char.isDigit = false → on_set_font_size s old = clampFont old) ∧
      (s.toList.all Char.isDigit = true →
        on_set_font_size s old = clampFont (wrapDigitsVal s.toList)) := by
  refine ⟨?_, ?_, ?_⟩
  · have h := clampFont_mem (if (fontLoop s.toList 0).1 then (fontLoop s.toList 0).2 else old)
    simpa [on_set_font_size] using h
  · intro hf
    simp [on_set_font_size, fontLoop_not_all s.data 0 hf]
  · intro hf
    simp [on_set_font_size, fontLoop_all_digits s.data 0 hf, wrapDigitsVal]

/-- C10 witness: the amended theorem applied to the ASCII input `"12"`
with previous size 5, both hypotheses discharged. -/
theorem C10_font_size_clamped_witness :
    1 ≤ on_set_font_size "12" 5 ∧ on_set_font_size "12" 5 ≤ 256 :=
  (C10_font_size_clamped "12" 5 (by decide)).1

/-! ### Codec lemmas: decimal digits -/

/-- The digit string does not depend on the fuel, as long as the fuel
exceeds the number. -/
theorem natDigitsAux_irrel : ∀ (n f g : Nat), n < f → n < g →
    natDigitsAux f n = natDigitsAux g n := by
  intro n
  induction n using Nat.strong_induction_on with
  | _ n ih =>
    intro f g hf hg
    cases f with
    | zero => omega
    | succ f2 =>
      cases g with
      | zero => omega
      | succ g2 =>
        by_cases h10 : n < 10
        · simp [natDigitsAux, h10]
        · have hlt : n / 10 < n := Nat.div_lt_self (by omega) (by omega)
          simp only [natDigitsAux, if_neg h10]
          rw [ih (n / 10) hlt f2 g2 (by omega) (by omega)]

/-- Unfolding equation for `natDigits` in the usual division form. -/
theorem natDigits_eq (n : Nat) :
    natDigits n
      = if n < 10 then [decDigitChar n]
        else natDigits (n / 10) ++ [decDigitChar (n % 10)] := by
  by_cases h10 : n < 10
  · rw [if_pos h10]
    simp [natDigits, natDigitsAux, h10]
  · have hlt : n / 10 < n := Nat.div_lt_self (by omega) (by omega)
    rw [if_neg h10]
    show natDigitsAux (n + 1) n = _
    rw [show natDigitsAux (n + 1) n = natDigitsAux n (n / 10) ++ [decDigitChar (n % 10)] from
      by simp [natDigitsAux, h10]]
    rw [natDigitsAux_irrel (n / 10) n (n / 10 + 1) hlt (by omega)]
    rfl

/-- A decimal digit character is a digit and carries its value. -/
theorem decDigit_isDigit : ∀ n < 10,
    (decDigitChar n).isDigit = true ∧ (decDigitChar n).toNat - 48 = n := by
  decide

/-- One digit step of the number parser. -/
theorem parseDigitsAux_digit (c : Char) (rest : List Char) (acc : Nat)
    (h : c.isDigit = true) :
    parseDigitsAux (c :: rest) acc = parseDigitsAux rest (acc * 10 + (c.toNat - 48)) := by
  simp [parseDigitsAux, h]

/-- The number parser stops at a non-digit. -/
theorem parseDigitsAux_stop (c : Char) (rest : List Char) (acc : Nat)
    (h : c.isDigit = false) :
    parseDigitsAux (c :: rest) acc = (acc, c :: rest) := by
  simp [parseDigitsAux, h]

/-- Consuming the digit string of `n` shifts the accumulator and adds `n`. -/
theorem parseDigitsAux_natDigits : ∀ (n : Nat) (rest : List Char) (acc : Nat),
    parseDigitsAux (natDigits n ++ rest) acc
      = parseDigitsAux rest (acc * 10 ^ (natDigits n).length + n) := by
  intro n
  induction n using Nat.strong_induction_on with
  | _ n ih =>
    intro rest acc
    rcases Nat.lt_or_ge n 10 with h10 | h10
    · rw [natDigits_eq n, if_pos h10, List.singleton_append,
        parseDigitsAux_digit _ _ _ (decDigit_isDigit n h10).1,
        (decDigit_isDigit n h10).2]
      simp
    · have hlt : n / 10 < n := Nat.div_lt_self (by omega) (by omega)
      rw [natDigits_eq n, if_neg (by omega), List.append_assoc, List.singleton_append,
        ih (n / 10) hlt,
        parseDigitsAux_digit _ _ _ (decDigit_isDigit (n % 10) (by omega)).1,
        (decDigit_isDigit (n % 10) (by omega)).2]
      congr 1
      have h1 : n / 10 * 10 + n % 10 = n := by omega
      calc (acc * 10 ^ (natDigits (n / 10)).length + n / 10) * 10 + n % 10
          = acc * (10 ^ (natDigits (n / 10)).length * 10) + (n / 10 * 10 + n % 10) := by ring
        _ = acc * 10 ^ ((natDigits (n / 10)).length + 1) + n := by rw [h1, pow_succ]
        _ = acc * 10 ^ (natDigits (n / 10) ++ [decDigitChar (n % 10)]).length + n := by
            simp

/-- The digit string of any number starts with a digit character. -/
theorem natDigits_cons : ∀ n : Nat, ∃ c t, natDigits n = c :: t ∧ c.isDigit = true := by
  intro n
  induction n using Nat.strong_induction_on with
  | _ n ih =>
    rcases Nat.lt_or_ge n 10 with h10 | h10
    · exact ⟨decDigitChar n, [], by rw [natDigits_eq n, if_pos h10],
        (decDigit_isDigit n h10).1⟩
    · obtain ⟨c, t, hct, hd⟩ := ih (n / 10) (Nat.div_lt_self (by omega) (by omega))
      refine ⟨c, t ++ [decDigitChar (n % 10)], ?_, hd⟩
      rw [natDigits_eq n, if_neg (by omega), hct]
      rfl

/-- Parsing the digit string of `n` followed by a non-digit recovers `n`. -/
theorem parseNat_natDigits (n : Nat) (ch : Char) (rest : List Char)
    (h : ch.isDigit = false) :
    parseNat (natDigits n ++ ch :: rest) = some (n, ch :: rest) := by
  obtain ⟨c, t, hct, hd⟩ := natDigits_cons n
  rw [hct, List.cons_append]
  simp only [parseNat, hd, if_pos]
  rw [← List.cons_append, ← hct, parseDigitsAux_natDigits n,
    parseDigitsAux_stop _ _ _ h]
  simp

/-- Decimal digit strings determine their number. -/
theorem natDigits_injective (a b : Nat) (h : natDigits a = natDigits b) : a = b := by
  have ha := parseNat_natDigits a ',' [] (by decide)
  have hb := parseNat_natDigits b ',' [] (by decide)
  rw [h, hb] at ha
  simpa using ha.symm

/-! ### Codec lemmas: string escaping -/

/-- The string parser closes on an unescaped quote. -/
theorem psb_close (tail : List Char) :
    parseStrBody (quoteChar :: tail) = some ([], tail) := by
  rw [parseStrBody.eq_def]
  rfl

/-- The string parser decodes an escaped quote. -/
theorem psb_esc_quote (tail : List Char) :
    parseStrBody ('\\' :: quoteChar :: tail)
      = (parseStrBody tail).map (fun p => (quoteChar :: p.1, p.2)) := by
  rw [parseStrBody.eq_def]
  rfl

/-- The string parser decodes an escaped backslash. -/
theorem psb_esc_backslash (tail : List Char) :
    parseStrBody ('\\' :: '\\' :: tail)
      = (parseStrBody tail).map (fun p => ('\\' :: p.1, p.2)) := by
  rw [parseStrBody.eq_def]
  rfl

/-- The string parser decodes a backspace escape. -/
theorem psb_esc_b (tail : List Char) :
    parseStrBody ('\\' :: 'b' :: tail)
      = (parseStrBody tail).map (fun p => (Char.ofNat 8 :: p.1, p.2)) := by
  rw [parseStrBody.eq_def]
  rfl

/-- The string parser decodes a tab escape. -/
theorem psb_esc_t (tail : List Char) :
    parseStrBody ('\\' :: 't' :: tail)
      = (parseStrBody tail).map (fun p => (Char.ofNat 9 :: p.1, p.2)) := by
  rw [parseStrBody.eq_def]
  rfl

/-- The string parser decodes a newline escape. -/
theorem psb_esc_n (tail : List Char) :
    parseStrBody ('\\' :: 'n' :: tail)
      = (parseStrBody tail).map (fun p => (Char.ofNat 10 :: p.1, p.2)) := by
  rw [parseStrBody.eq_def]
  rfl

/-- The string parser decodes a form-feed escape. -/
theorem psb_esc_f (tail : List Char) :
    parseStrBody ('\\' :: 'f' :: tail)
      = (parseStrBody tail).map (fun p => (Char.ofNat 12 :: p.1, p.2)) := by
  rw [parseStrBody.eq_def]
  rfl

/-- The string parser decodes a carriage-return escape. -/
theorem psb_esc_r (tail : List Char) :
    parseStrBody ('\\' :: 'r' :: tail)
      = (parseStrBody tail).map (fun p => (Char.ofNat 13 :: p.1, p.2)) := by
  rw [parseStrBody.eq_def]
  rfl

/-- The string parser decodes a `\u00XY` escape written with the
serializer's hex digit characters. -/
theorem psb_u (a b : Nat) (ha : a < 16) (hb : b < 16) (tail : List Char) :
    parseStrBody ('\\' :: 'u' :: '0' :: '0' :: hexDigitChar a :: hexDigitChar b :: tail)
      = (parseStrBody tail).map (fun p => (Char.ofNat (a * 16 + b) :: p.1, p.2)) := by
  interval_cases a <;> interval_cases b <;> (rw [parseStrBody.eq_def]; rfl)

/-- The string parser passes an ordinary character through. -/
theorem psb_plain (c : Char) (h32 : 32 ≤ c.toNat) (hq : c ≠ quoteChar) (hb : c ≠ '\\')
    (tail : List Char) :
    parseStrBody (c :: tail) = (parseStrBody tail).map (fun p => (c :: p.1, p.2)) := by
  rw [parseStrBody.eq_def]
  simp only [if_neg hq, if_neg hb, if_neg (show ¬ c.toNat < 32 by omega)]

/-- Round trip of the string codec: parsing the escaped body followed by
the closing quote recovers the original characters. -/
theorem parseStrBody_escStr : ∀ (s rest : List Char),
    parseStrBody (escStr s ++ quoteChar :: rest) = some (s, rest) := by
  intro s
  induction s with
  | nil =>
    intro rest
    show parseStrBody (quoteChar :: rest) = some ([], rest)
    exact psb_close rest
  | cons c cs ih =>
    intro rest
    show parseStrBody ((escChar c ++ escStr cs) ++ quoteChar :: rest) = _
    rw [List.append_assoc]
    by_cases h1 : c = quoteChar
    · subst h1
      rw [show escChar quoteChar = ['\\', quoteChar] from rfl]
      simp only [List.cons_append, List.nil_append]
      rw [psb_esc_quote, ih rest]
      rfl
    · by_cases h2 : c = '\\'
      · subst h2
        rw [show escChar '\\' = ['\\', '\\'] from rfl]
        simp only [List.cons_append, List.nil_append]
        rw [psb_esc_backslash, ih rest]
        rfl
      · by_cases h3 : c = Char.ofNat 8
        · subst h3
          rw [show escChar (Char.ofNat 8) = ['\\', 'b'] from rfl]
          simp only [List.cons_append, List.nil_append]
          rw [psb_esc_b, ih rest]
          rfl
        · by_cases h4 : c = Char.ofNat 9
          · subst h4
            rw [show escChar (Char.ofNat 9) = ['\\', 't'] from rfl]
            simp only [List.cons_append, List.nil_append]
            rw [psb_esc_t, ih rest]
            rfl
          · by_cases h5 : c = Char.ofNat 10
            · subst h5
              rw [show escChar (Char.ofNat 10) = ['\\', 'n'] from rfl]
              simp only [List.cons_append, List.nil_append]
              rw [psb_esc_n, ih rest]
              rfl
            · by_cases h6 : c = Char.ofNat 12
              · subst h6
                rw [show escChar (Char.ofNat 12) = ['\\', 'f'] from rfl]
                simp only [List.cons_append, List.nil_append]
                rw [psb_esc_f, ih rest]
                rfl
              · by_cases h7 : c = Char.ofNat 13
                · subst h7
                  rw [show escChar (Char.ofNat 13) = ['\\', 'r'] from rfl]
                  simp only [List.cons_append, List.nil_append]
                  rw [psb_esc_r, ih rest]
                  rfl
                · by_cases h8 : c.toNat < 32
                  · rw [show escChar c
                        = ['\\', 'u', '0', '0', hexDigitChar (c.toNat / 16),
                            hexDigitChar (c.toNat % 16)] from
                      by simp [escChar, h1, h2, h3, h4, h5, h6, h7, h8]]
                    simp only [List.cons_append, List.nil_append]
                    rw [psb_u (c.toNat / 16) (c.toNat % 16) (by omega) (by omega), ih rest]
                    have hc : c.toNat / 16 * 16 + c.toNat % 16 = c.toNat := by omega
                    rw [hc, Char.ofNat_toNat]
                    rfl
                  · rw [show escChar c = [c] from
                      by simp [escChar, h1, h2, h3, h4, h5, h6, h7, h8]]
                    rw [List.singleton_append, psb_plain c (by omega) h1 h2, ih rest]
                    rfl

/-! ### Codec lemmas: records and the array -/

/-- Rebuilding a string from its character list is the identity. -/
theorem stringMk_toList (s : String) : String.mk s.toList = s := rfl

/-- Consuming a literal prefix succeeds and leaves the tail. -/
theorem expectLit_append : ∀ (lit rest : List Char), expectLit lit (lit ++ rest) = some rest := by
  intro lit
  induction lit with
  | nil => intro rest; rfl
  | cons c cs ih =>
    intro rest
    simp [expectLit, ih]

/-- Round trip of one record: parsing its serialized object recovers the
record and leaves the tail. -/
theorem parseRecord_recordJson (f : FileInfo) (rest : List Char) :
    parseRecord (recordJson f ++ rest) = some (f, rest) := by
  have e0 : recordJson f ++ rest
      = litName ++ (escStr f.name.toList ++ (quoteChar ::
          (litFilepath ++ (escStr f.filepath.toList ++ (quoteChar ::
            (litLastRead ++ (natDigits f.last_read ++
              (litPageNum ++ (natDigits f.page_num ++ (rbraceChar :: rest)))))))))) := by
    simp [recordJson, List.append_assoc]
  have hnum1 : parseNat (natDigits f.last_read
        ++ (litPageNum ++ (natDigits f.page_num ++ (rbraceChar :: rest))))
      = some (f.last_read, litPageNum ++ (natDigits f.page_num ++ (rbraceChar :: rest))) := by
    have hsh : ∀ Y : List Char, litPageNum ++ Y
        = ',' :: (([quoteChar] ++ ("page_num").toList ++ [quoteChar, ':']) ++ Y) :=
      fun Y => rfl
    rw [hsh, parseNat_natDigits _ ',' _ (by decide), ← hsh]
  have hnum2 : parseNat (natDigits f.page_num ++ (rbraceChar :: rest))
      = some (f.page_num, rbraceChar :: rest) :=
    parseNat_natDigits _ rbraceChar _ (by decide)
  rw [e0]
  simp only [parseRecord, expectLit_append, parseStrBody_escStr, hnum1, hnum2]
  rw [show expectLit [rbraceChar] (rbraceChar :: rest) = some rest from by
    simp [expectLit]]
  rw [stringMk_toList, stringMk_toList]

/-- A serialized record starts with the opening brace. -/
theorem recordJson_cons (f : FileInfo) : ∃ t, recordJson f = lbraceChar :: t :=
  ⟨_, rfl⟩

/-- The serialized items of a non-empty registry start with the opening
brace of the first record. -/
theorem itemsJson_cons (f : FileInfo) (fs : List FileInfo) :
    ∃ t, itemsJson (f :: fs) = lbraceChar :: t := by
  obtain ⟨t, ht⟩ := recordJson_cons f
  cases fs with
  | nil => exact ⟨t, by simp [itemsJson, ht]⟩
  | cons g fs2 => exact ⟨t ++ (',' :: itemsJson (g :: fs2)), by simp [itemsJson, ht]⟩

/-- Each record contributes at least one character, so the item text is at
least as long as the registry. -/
theorem le_length_itemsJson : ∀ fs : List FileInfo, fs.length ≤ (itemsJson fs).length := by
  intro fs
  induction fs with
  | nil => simp [itemsJson]
  | cons f fs ih =>
    obtain ⟨t, ht⟩ := recordJson_cons f
    cases fs with
    | nil => simp [itemsJson, ht]
    | cons g fs2 =>
      have hlen := ih
      simp only [itemsJson, ht, List.length_cons, List.length_append] at hlen ⊢
      omega

/-- Round trip of the item list: with enough fuel, parsing the serialized
items followed by the closing bracket recovers the records. -/
theorem parseItemsAux_itemsJson : ∀ (fs : List FileInfo) (fuel : Nat) (rest : List Char),
    fs ≠ [] → fs.length ≤ fuel →
    parseItemsAux fuel (itemsJson fs ++ (']' :: rest)) = some (fs, rest) := by
  intro fs
  induction fs with
  | nil => intro fuel rest h _; exact absurd rfl h
  | cons f fs ih =>
    intro fuel rest _ hlen
    cases fuel with
    | zero => simp at hlen
    | succ fuel2 =>
      cases fs with
      | nil =>
        show parseItemsAux (fuel2 + 1) (recordJson f ++ (']' :: rest)) = some ([f], rest)
        simp only [parseItemsAux, parseRecord_recordJson]
        simp
      | cons g fs2 =>
        show parseItemsAux (fuel2 + 1)
            ((recordJson f ++ (',' :: itemsJson (g :: fs2))) ++ (']' :: rest)) = _
        rw [List.append_assoc, List.cons_append]
        simp only [parseItemsAux, parseRecord_recordJson]
        rw [if_pos trivial, ih fuel2 rest (by simp) (by simp at hlen ⊢; omega)]
        rfl

/-- Round trip of the whole snapshot: parsing the serialized registry
recovers it exactly, shared by the C3 and C4 theorems. -/
theorem parse_serialize (fs : List FileInfo) : parse (serialize fs) = Except.ok fs := by
  cases fs with
  | nil => rfl
  | cons f fs2 =>
    obtain ⟨t, ht⟩ := itemsJson_cons f fs2
    have hshape : itemsJson (f :: fs2) ++ [']'] = lbraceChar :: (t ++ [']']) := by
      rw [ht]
      rfl
    have hfuel : (f :: fs2).length ≤ (itemsJson (f :: fs2) ++ [']']).length := by
      have := le_length_itemsJson (f :: fs2)
      simp only [List.length_append] at *
      omega
    have hpl : parseList (listJson (f :: fs2)) = some (f :: fs2, []) := by
      show parseList ('[' :: (itemsJson (f :: fs2) ++ [']'])) = _
      rw [hshape]
      simp only [parseList]
      rw [if_pos trivial, if_neg (by decide : ¬ (lbraceChar = ']'))]
      rw [← hshape]
      have harr : itemsJson (f :: fs2) ++ [']'] = itemsJson (f :: fs2) ++ (']' :: []) := rfl
      rw [harr, parseItemsAux_itemsJson (f :: fs2) _ [] (by simp) (by simpa using hfuel)]
    show parse (String.mk (listJson (f :: fs2))) = _
    simp only [parse, stringMk_toList]
    rw [show (String.mk (listJson (f :: fs2))).toList = listJson (f :: fs2) from rfl, hpl]

/-- Taking the character list of a rebuilt string is the identity. -/
theorem toList_stringMk (l : List Char) : (String.mk l).toList = l := rfl

/-! ### Persistence and label theorems -/

/-- C3 counterexample: on malformed snapshot content the startup logic of
`main` does not fall back to an empty registry; the `?` operator
propagates the `ParseError`, so `main` returns the error and startup is
aborted. -/
theorem C3_malformed_aborts_counterexample :
    mainInit (some "notjson") = Except.error ParseError.parseError := rfl

/-- C3 amended: a missing or empty snapshot yields an empty registry at
startup, and loading a snapshot that `serialize` wrote recovers the
registry; but any other non-empty content is handed to the parser with
its failure propagated out of `main` by `?` (aborting startup), not
replaced by an empty registry. -/
theorem C3_startup_load :
    mainInit none = Except.ok [] ∧ mainInit (some "") = Except.ok [] ∧
      (∀ s : String, s ≠ "" → mainInit (some s) = parse s) ∧
      (∀ fs : List FileInfo, mainInit (some (serialize fs)) = Except.ok fs) := by
  refine ⟨rfl, rfl, ?_, ?_⟩
  · intro s hs
    simp [mainInit, hs]
  · intro fs
    have hne : serialize fs ≠ "" := by
      intro h
      have h2 : listJson fs = [] := by
        have h3 := congrArg String.toList h
        simpa [serialize, toList_stringMk] using h3
      simp [listJson] at h2
    rw [show mainInit (some (serialize fs)) = parse (serialize fs) from by
      simp [mainInit, hne]]
    exact parse_serialize fs

/-- C3 witness: the amended theorem applied to the concrete non-empty
content `"x"`, whose hypothesis is discharged; startup hands it to the
parser rather than substituting an empty registry. -/
theorem C3_startup_load_witness : mainInit (some "x") = parse "x" :=
  C3_startup_load.2.2.1 "x" (by decide)

/-- C4: round-trip persistence — serializing any registry and parsing the
snapshot back yields the same records, field for field, in the same
order. -/
theorem C4_save_load_roundtrip (R : List FileInfo) :
    parse (serialize R) = Except.ok R :=
  parse_serialize R

/-- C8 counterexample: at page cursor 0 of a 5-page document the label is
`"0 of 5"`, which matches neither the uniformly one-based reading
(`"1 of 5"`) nor the uniformly zero-based one (`"0 of 4"`). -/
theorem C8_label_counterexample :
    ¬ (on_get_page 0 5 = labelOneBased 0 5 ∨ on_get_page 0 5 = labelZeroBased 0 5) := by
  decide

/-- C8 amended: the label mixes conventions — it shows the zero-based
page cursor (the very value navigation and storage use) next to the
one-based page count, so for every document with at least one page it
differs from both uniform single-convention labels. -/
theorem C8_label_mixed_convention (cur total : Nat) (h : 1 ≤ total) :
    on_get_page cur total ≠ labelOneBased cur total ∧
      on_get_page cur total ≠ labelZeroBased cur total := by
  constructor
  · intro heq
    have hl : natDigits cur ++ (' ' :: ('o' :: ('f' :: (' ' :: natDigits total))))
        = natDigits (cur + 1) ++ (' ' :: ('o' :: ('f' :: (' ' :: natDigits total)))) := by
      have h3 := congrArg String.toList heq
      simpa [on_get_page, labelOneBased, toList_stringMk, List.append_assoc] using h3
    have h1 := parseNat_natDigits cur ' ' ('o' :: ('f' :: (' ' :: natDigits total)))
      (by decide)
    rw [hl, parseNat_natDigits (cur + 1) ' ' ('o' :: ('f' :: (' ' :: natDigits total)))
      (by decide)] at h1
    simp at h1
  · intro heq
    have hl : natDigits cur ++ (' ' :: ('o' :: ('f' :: (' ' :: natDigits total))))
        = natDigits cur ++ (' ' :: ('o' :: ('f' :: (' ' :: natDigits (total - 1))))) := by
      have h3 := congrArg String.toList heq
      simpa [on_get_page, labelZeroBased, toList_stringMk, List.append_assoc] using h3
    have h1 := parseNat_natDigits cur ' ' ('o' :: ('f' :: (' ' :: natDigits total)))
      (by decide)
    rw [hl, parseNat_natDigits cur ' ' ('o' :: ('f' :: (' ' :: natDigits (total - 1))))
      (by decide)] at h1
    simp at h1
    have := natDigits_injective (total - 1) total h1
    omega

/-- C8 witness: the amended theorem applied to page cursor 0 of a 5-page
document, with the page-count hypothesis discharged. -/
theorem C8_label_mixed_convention_witness :
    on_get_page 0 5 ≠ labelOneBased 0 5 ∧ on_get_page 0 5 ≠ labelZeroBased 0 5 :=
  C8_label_mixed_convention 0 5 (by decide)

end PDFer
